import Mathlib

/-!
Shallow embedding of `custom_components/octopus_energy/api_client.py`
(HomeAssistant-OctopusEnergy).

Modelling conventions, used throughout:

* Timestamps are seconds since an arbitrary epoch, as `Int`.  The source
  manipulates timezone-aware `datetime` values; comparison and arithmetic on
  those is comparison and arithmetic on the underlying instants, so `Int`
  seconds is faithful.  `timedelta(minutes=30)` is `1800`.
* Prices are `ℚ`.  The source casts JSON numbers with `float(...)`; the cast
  is modelled as the identity on the (already numeric) value, since no claim
  depends on binary floating-point rounding.
* A JSON field that may be *absent* or *null* is modelled with nested
  options: `none` = key absent, `some none` = key present holding null,
  `some (some v)` = key present holding a value.  The source distinguishes
  absent from null only for `valid_from` (absence makes the sort's key
  function raise `KeyError`); for `valid_to` absence and null take the same
  branch, so a single `Option` suffices there.
* Python exceptions are modelled with `Except PyErr`.  CPython's
  `list.sort(key=f)` first computes `f` on every element (so an absent
  `valid_from` key raises `KeyError` even for a one-element list), and then
  compares the keys; comparing `None` with anything (including `None`)
  raises `TypeError`, and with two or more elements every key participates
  in at least one comparison, so the sort raises `TypeError` exactly when
  the list has at least two elements and some key is `None`.  Keys that are
  all timestamp strings in the API's uniform ISO-8601 format compare
  lexicographically in chronological order, modelled as comparing the
  parsed instants.
* Python's `list.sort` is a stable sort, modelled by `List.mergeSort`.
-/

namespace OctopusEnergy

/-- Python exceptions that the modelled code paths can raise. -/
inductive PyErr where
  | keyError
  | typeError
  | exception (msg : String)
deriving DecidableEq

/-- A raw rate record as decoded from the JSON body: the two prices plus the
optional `valid_from` / `valid_to` fields (see the modelling conventions for
the nested-option encoding of absent vs null). -/
structure RawRate where
  value_exc_vat : ℚ
  value_inc_vat : ℚ
  valid_from : Option (Option Int)
  valid_to : Option Int
deriving DecidableEq

/-- A normalized 30-minute rate interval, the dictionaries appended to
`results` in `__process_electricity_rates`. -/
structure Rate where
  value_exc_vat : ℚ
  value_inc_vat : ℚ
  valid_from : Int
  valid_to : Int
  tariff_code : String
deriving DecidableEq

/-- The key function `__get_valid_from` as used by the input sort of
`__process_electricity_rates`.  It is only ever applied on the branch where
every record's `valid_from` is a timestamp (otherwise the sort has already
raised `KeyError` or `TypeError`), so the other cases return a junk value. -/
def pySortKey (r : RawRate) : Int :=
  match r.valid_from with
  | some (some t) => t
  | _ => 0

/-- The while loop of `__process_electricity_rates` (lines 387-398): starting
from `valid_from`, while it is strictly before `target_date`, emit a
30-minute interval stamped with the record's prices and the tariff code,
then advance by 30 minutes.  Returns the emitted intervals together with the
final value of `valid_from` (which the source assigns to
`starting_period_from` on every iteration). -/
def emitLoop (exc inc : ℚ) (tariff_code : String) (valid_from target_date : Int) :
    List Rate × Int :=
  if valid_from < target_date then
    let valid_to := valid_from + 1800
    let rest := emitLoop exc inc tariff_code valid_to target_date
    (⟨exc, inc, valid_from, valid_to, tariff_code⟩ :: rest.1, rest.2)
  else ([], valid_from)
termination_by (target_date - valid_from).toNat
decreasing_by simp_wf; omega

/-- The per-record loop of `__process_electricity_rates` (lines 363-398),
over the already-sorted records.  The second list argument threads
`starting_period_from`, the running cursor: a record's `valid_from` is
clamped up to the cursor (or replaces it when absent/null), its `valid_to`
is clamped down to `period_to` (or replaced by it when absent/null), and the
cursor advances to the last emitted `valid_to`. -/
def processItems (period_to : Int) (tariff_code : String) :
    List RawRate → Int → List Rate
  | [], _ => []
  | item :: rest, starting_period_from =>
    let valid_from :=
      match item.valid_from with
      | some (some t) => if t < starting_period_from then starting_period_from else t
      | _ => starting_period_from
    let target_date :=
      match item.valid_to with
      | some t => if period_to < t then period_to else t
      | none => period_to
    let step := emitLoop item.value_exc_vat item.value_inc_vat tariff_code valid_from target_date
    let cursor := if valid_from < target_date then step.2 else starting_period_from
    step.1 ++ processItems period_to tariff_code rest cursor

/-- Model of `__process_electricity_rates` (lines 353-400).  The argument
`results` is the value of `data["results"]` when the key is present
(`none` models a decoded body without a `"results"` key, for which the
source returns the empty list).  The two error branches model the sort on
line 359, per the modelling conventions: `KeyError` when some record lacks
the `valid_from` key, otherwise `TypeError` when the list has at least two
records and some `valid_from` is null. -/
def processElectricityRates (results : Option (List RawRate))
    (period_from period_to : Int) (tariff_code : String) : Except PyErr (List Rate) :=
  match results with
  | none => .ok []
  | some items =>
    if items.any (fun i => i.valid_from.isNone) then
      .error .keyError
    else if 2 ≤ items.length ∧ items.any (fun i => decide (i.valid_from = some none)) then
      .error .typeError
    else
      .ok (processItems period_to tariff_code
        (items.mergeSort (fun i j => decide (pySortKey i ≤ pySortKey j))) period_from)

/-- The union of the half-open intervals of a rate list is exactly the
half-open window from `a` to `b`.  All endpoints are integers, so pointwise
equality over `Int` coincides with equality of the real unions. -/
def coversExactly (l : List Rate) (a b : Int) : Prop :=
  ∀ t : Int, (a ≤ t ∧ t < b) ↔ ∃ r ∈ l, r.valid_from ≤ t ∧ t < r.valid_to

theorem emitLoop_eq_pos {e i : ℚ} {tc : String} {f t : Int} (h : f < t) :
    emitLoop e i tc f t =
      (⟨e, i, f, f + 1800, tc⟩ :: (emitLoop e i tc (f + 1800) t).1,
       (emitLoop e i tc (f + 1800) t).2) := by
  rw [emitLoop]; simp [h]

theorem emitLoop_eq_neg {e i : ℚ} {tc : String} {f t : Int} (h : ¬ f < t) :
    emitLoop e i tc f t = ([], f) := by
  rw [emitLoop]; simp [h]

theorem emitLoop_final_ge (e i : ℚ) (tc : String) (f t : Int) :
    f ≤ (emitLoop e i tc f t).2 := by
  by_cases h : f < t
  · have ih := emitLoop_final_ge e i tc (f + 1800) t
    rw [emitLoop_eq_pos h]
    omega
  · rw [emitLoop_eq_neg h]
termination_by (t - f).toNat
decreasing_by omega

theorem emitLoop_final_bounds (e i : ℚ) (tc : String) (f t : Int) (h : f < t) :
    t ≤ (emitLoop e i tc f t).2 ∧ (emitLoop e i tc f t).2 < t + 1800 := by
  rw [emitLoop_eq_pos h]
  by_cases h2 : f + 1800 < t
  · exact emitLoop_final_bounds e i tc (f + 1800) t h2
  · rw [emitLoop_eq_neg h2]
    omega
termination_by (t - f).toNat
decreasing_by omega

theorem emitLoop_final_aligned (e i : ℚ) (tc : String) (f t : Int) (h : f < t)
    (hd : (1800 : Int) ∣ t - f) : (emitLoop e i tc f t).2 = t := by
  rw [emitLoop_eq_pos h]
  by_cases h2 : f + 1800 < t
  · refine emitLoop_final_aligned e i tc (f + 1800) t h2 ?_
    obtain ⟨k, hk⟩ := hd
    exact ⟨k - 1, by omega⟩
  · rw [emitLoop_eq_neg h2]
    obtain ⟨k, hk⟩ := hd
    omega
termination_by (t - f).toNat
decreasing_by omega

theorem emitLoop_mem (e i : ℚ) (tc : String) (f t : Int) :
    ∀ r ∈ (emitLoop e i tc f t).1,
      r.value_exc_vat = e ∧ r.value_inc_vat = i ∧ r.tariff_code = tc ∧
      r.valid_to = r.valid_from + 1800 ∧ f ≤ r.valid_from ∧ r.valid_from < t := by
  by_cases h : f < t
  · have ih := emitLoop_mem e i tc (f + 1800) t
    rw [emitLoop_eq_pos h]
    intro r hr
    rcases List.mem_cons.mp hr with rfl | hr
    · exact ⟨rfl, rfl, rfl, rfl, le_refl _, h⟩
    · have := ih r hr
      refine ⟨this.1, this.2.1, this.2.2.1, this.2.2.2.1, by omega, this.2.2.2.2.2⟩
  · rw [emitLoop_eq_neg h]
    intro r hr
    simp at hr
termination_by (t - f).toNat
decreasing_by omega

theorem emitLoop_cover (e i : ℚ) (tc : String) (f t : Int) (x : Int) :
    (∃ r ∈ (emitLoop e i tc f t).1, r.valid_from ≤ x ∧ x < r.valid_to) ↔
      (f ≤ x ∧ x < (emitLoop e i tc f t).2) := by
  by_cases h : f < t
  · have ih := emitLoop_cover e i tc (f + 1800) t x
    have hge := emitLoop_final_ge e i tc (f + 1800) t
    rw [emitLoop_eq_pos h]
    constructor
    · rintro ⟨r, hr, hx1, hx2⟩
      rcases List.mem_cons.mp hr with rfl | hr
      · exact ⟨hx1, by simp only at hx2 ⊢; omega⟩
      · have := ih.mp ⟨r, hr, hx1, hx2⟩
        exact ⟨by omega, this.2⟩
    · rintro ⟨hx1, hx2⟩
      by_cases hx3 : x < f + 1800
      · exact ⟨⟨e, i, f, f + 1800, tc⟩, by simp, hx1, hx3⟩
      · obtain ⟨r, hr, hrx⟩ := ih.mpr ⟨by omega, hx2⟩
        exact ⟨r, by simp [hr], hrx⟩
  · rw [emitLoop_eq_neg h]
    constructor
    · rintro ⟨r, hr, _⟩
      simp at hr
    · rintro ⟨hx1, hx2⟩
      omega
termination_by (t - f).toNat
decreasing_by omega

theorem emitLoop_mem_final (e i : ℚ) (tc : String) (f t : Int) :
    ∀ r ∈ (emitLoop e i tc f t).1, r.valid_to ≤ (emitLoop e i tc f t).2 := by
  by_cases h : f < t
  · have ih := emitLoop_mem_final e i tc (f + 1800) t
    have hge := emitLoop_final_ge e i tc (f + 1800) t
    rw [emitLoop_eq_pos h]
    intro r hr
    rcases List.mem_cons.mp hr with rfl | hr
    · simpa using hge
    · exact ih r hr
  · rw [emitLoop_eq_neg h]
    intro r hr
    simp at hr
termination_by (t - f).toNat
decreasing_by omega

theorem emitLoop_ordered (e i : ℚ) (tc : String) (f t : Int) :
    (emitLoop e i tc f t).1.Pairwise (fun r s => r.valid_to ≤ s.valid_from) := by
  by_cases h : f < t
  · have ih := emitLoop_ordered e i tc (f + 1800) t
    have hmem := emitLoop_mem e i tc (f + 1800) t
    rw [emitLoop_eq_pos h]
    refine List.Pairwise.cons ?_ ih
    intro s hs
    have := hmem s hs
    simp only
    omega
  · rw [emitLoop_eq_neg h]
    exact List.Pairwise.nil
termination_by (t - f).toNat
decreasing_by omega

theorem processItems_mem (b : Int) (tc : String) (items : List RawRate) (cursor : Int) :
    ∀ r ∈ processItems b tc items cursor,
      cursor ≤ r.valid_from ∧ r.valid_from < b ∧
      r.valid_to = r.valid_from + 1800 ∧ r.tariff_code = tc ∧
      ∃ item ∈ items, r.value_exc_vat = item.value_exc_vat ∧
        r.value_inc_vat = item.value_inc_vat := by
  induction items generalizing cursor with
  | nil => intro r hr; simp [processItems] at hr
  | cons item rest ih =>
    intro r hr
    simp only [processItems] at hr
    set valid_from :=
      match item.valid_from with
      | some (some t) => if t < cursor then cursor else t
      | _ => cursor with hvf
    set target_date :=
      match item.valid_to with
      | some t => if b < t then b else t
      | none => b with htd
    have hvf_ge : cursor ≤ valid_from := by
      rw [hvf]
      rcases item.valid_from with _ | _ | t
      · exact le_refl _
      · exact le_refl _
      · simp only
        split <;> omega
    have htd_le : target_date ≤ b := by
      rw [htd]
      rcases item.valid_to with _ | t
      · exact le_refl _
      · simp only
        split <;> omega
    rcases List.mem_append.mp hr with hr | hr
    · have hm := emitLoop_mem item.value_exc_vat item.value_inc_vat tc
        valid_from target_date r hr
      exact ⟨by omega, by omega, hm.2.2.2.1, hm.2.2.1,
        ⟨item, List.mem_cons_self _ _, hm.1, hm.2.1⟩⟩
    · have hcur : cursor ≤
          (if valid_from < target_date
            then (emitLoop item.value_exc_vat item.value_inc_vat tc
                    valid_from target_date).2
            else cursor) := by
        split
        · have := emitLoop_final_ge item.value_exc_vat item.value_inc_vat tc
            valid_from target_date
          omega
        · exact le_refl _
      have := ih _ r hr
      exact ⟨by omega, this.2.1, this.2.2.1, this.2.2.2.1,
        (this.2.2.2.2).imp fun it ⟨hit, hp⟩ => ⟨List.mem_cons_of_mem _ hit, hp⟩⟩

theorem processItems_ordered (b : Int) (tc : String) (items : List RawRate) (cursor : Int) :
    (processItems b tc items cursor).Pairwise (fun r s => r.valid_to ≤ s.valid_from) := by
  induction items generalizing cursor with
  | nil => simp [processItems]
  | cons item rest ih =>
    simp only [processItems]
    rw [List.pairwise_append]
    refine ⟨emitLoop_ordered _ _ _ _ _, ih _, ?_⟩
    intro r hr s hs
    by_cases hlt :
        (match item.valid_from with
          | some (some t) => if t < cursor then cursor else t
          | _ => cursor) <
        (match item.valid_to with
          | some t => if b < t then b else t
          | none => b)
    · have h1 := emitLoop_mem_final item.value_exc_vat item.value_inc_vat tc _ _ r hr
      have h2 := (processItems_mem b tc rest _ s hs).1
      simp only [if_pos hlt] at hs h2 ⊢
      omega
    · rw [emitLoop_eq_neg hlt] at hr
      simp at hr

theorem processElectricityRates_ok {items : List RawRate} {a b : Int} {tc : String}
    {l : List Rate} (h : processElectricityRates (some items) a b tc = .ok l) :
    l = processItems b tc
      (items.mergeSort (fun i j => decide (pySortKey i ≤ pySortKey j))) a := by
  simp only [processElectricityRates] at h
  split_ifs at h
  all_goals cases h
  all_goals rfl

/-- The record's explicit start time (when it has one) does not start after
the window start, so the record does not restrict coverage on the left. -/
def startsByWindow (rec : RawRate) (a : Int) : Prop :=
  ∀ v, rec.valid_from = some (some v) → v ≤ a

/-- The record's explicit end time (when it has one) reaches at least the
window end, so the record does not restrict coverage on the right. -/
def reachesWindowEnd (rec : RawRate) (b : Int) : Prop :=
  ∀ w, rec.valid_to = some w → b ≤ w

theorem processItems_single_cover (rec : RawRate) (a b : Int) (tc : String)
    (h1 : startsByWindow rec a) (h2 : reachesWindowEnd rec b)
    (hd : (1800 : Int) ∣ b - a) :
    coversExactly (processItems b tc [rec] a) a b := by
  have hf : (match rec.valid_from with
      | some (some t) => if t < a then a else t
      | _ => a) = a := by
    rcases hvf : rec.valid_from with _ | _ | v
    · rfl
    · rfl
    · have := h1 v hvf
      simp only
      split <;> omega
  have ht : (match rec.valid_to with
      | some t => if b < t then b else t
      | none => b) = b := by
    rcases hvt : rec.valid_to with _ | w
    · rfl
    · have := h2 w hvt
      simp only
      split <;> omega
  intro x
  simp only [processItems, hf, ht, List.append_nil]
  rw [emitLoop_cover]
  by_cases hab : a < b
  · rw [emitLoop_final_aligned _ _ _ _ _ hab hd]
  · rw [(emitLoop_eq_neg hab ▸ rfl :
      (emitLoop rec.value_exc_vat rec.value_inc_vat tc a b).2 = a)]
    omega

/-- C1 (amended).  The claim as stated is false: a record whose resolved
start lies strictly inside the window leaves the beginning of the window
uncovered (see the counterexample).  What holds unconditionally is that
every emitted interval lasts exactly 30 minutes and the emitted intervals
are ordered and pairwise non-overlapping; the union is exactly the window
when the input is a single record that does not restrict the window on
either side and the window length is a multiple of 30 minutes. -/
theorem claim_C1_amended (items : List RawRate) (a b : Int) (tc : String)
    (l : List Rate) (h : processElectricityRates (some items) a b tc = .ok l) :
    ((∀ r ∈ l, r.valid_to = r.valid_from + 1800) ∧
      l.Pairwise (fun r s => r.valid_to ≤ s.valid_from)) ∧
    (∀ rec, items = [rec] → startsByWindow rec a → reachesWindowEnd rec b →
      (1800 : Int) ∣ b - a → coversExactly l a b) := by
  have hl := processElectricityRates_ok h
  subst hl
  refine ⟨⟨fun r hr => (processItems_mem _ _ _ _ r hr).2.2.1,
    processItems_ordered _ _ _ _⟩, ?_⟩
  rintro rec rfl h1 h2 hd
  rw [List.mergeSort_singleton]
  exact processItems_single_cover rec a b tc h1 h2 hd

/-- C1, the claim as frozen, is false on the code: with the window from 0 to
3600 seconds and a single record whose explicit start is 1800, the output is
the single interval from 1800 to 3600, whose union misses the first half
hour of the window. -/
theorem claim_C1_counterexample :
    processElectricityRates (some [⟨10, 10, some (some 1800), none⟩]) 0 3600 "T" =
      .ok [⟨10, 10, 1800, 3600, "T"⟩] ∧
    ¬ coversExactly [⟨10, 10, 1800, 3600, "T"⟩] 0 3600 := by
  constructor
  · simp [processElectricityRates, processItems, emitLoop]
  · intro h
    obtain ⟨r, hr, hx1, hx2⟩ := (h 0).mp ⟨le_refl 0, by norm_num⟩
    rw [List.mem_singleton] at hr
    subst hr
    simp at hx1

/-- Closed instance of the amended C1, discharging its hypotheses at the
spec's own scenario: one record with null start and absent end over a two
hour window yields four contiguous half-hour intervals covering it. -/
theorem claim_C1_witness :
    coversExactly
      [⟨10, 21/2, 0, 1800, "T"⟩, ⟨10, 21/2, 1800, 3600, "T"⟩,
       ⟨10, 21/2, 3600, 5400, "T"⟩, ⟨10, 21/2, 5400, 7200, "T"⟩] 0 7200 :=
  (claim_C1_amended [⟨10, 21/2, some none, none⟩] 0 7200 "T" _
      (by simp [processElectricityRates, processItems, emitLoop])).2
    ⟨10, 21/2, some none, none⟩ rfl
    (fun v hv => by cases hv) (fun w hw => by cases hw) (by decide)

/-- C2 (amended).  The first half of the claim holds: no emitted interval
starts before the window start.  The second half is false as frozen (see
the counterexample): when the distance from an emitted start to the window
end is not a multiple of 30 minutes, the final interval of the while loop
overshoots the window end.  What holds is that every emitted interval
starts strictly before the window end, so its end exceeds the window end by
less than 30 minutes. -/
theorem claim_C2_amended (items : List RawRate) (a b : Int) (tc : String)
    (l : List Rate) (h : processElectricityRates (some items) a b tc = .ok l) :
    ∀ r ∈ l, a ≤ r.valid_from ∧ r.valid_from < b ∧ r.valid_to < b + 1800 := by
  have hl := processElectricityRates_ok h
  subst hl
  intro r hr
  have := processItems_mem b tc _ a r hr
  exact ⟨this.1, this.2.1, by omega⟩

/-- C2, the claim as frozen, is false on the code: with the window from 0
to 2700 seconds and one record with null start and absent end (so its end
exceeds the window end in the claim's sense), the second emitted interval
ends at 3600, after the window end 2700. -/
theorem claim_C2_counterexample :
    processElectricityRates (some [⟨10, 10, some none, none⟩]) 0 2700 "T" =
      .ok [⟨10, 10, 0, 1800, "T"⟩, ⟨10, 10, 1800, 3600, "T"⟩] ∧
    ∃ r ∈ [Rate.mk 10 10 0 1800 "T", Rate.mk 10 10 1800 3600 "T"],
      2700 < r.valid_to := by
  constructor
  · simp [processElectricityRates, processItems, emitLoop]
  · exact ⟨⟨10, 10, 1800, 3600, "T"⟩, by simp, by norm_num⟩

/-- Closed instance of the amended C2 at a concrete input. -/
theorem claim_C2_witness :
    0 ≤ (1800 : Int) ∧ (1800 : Int) < 2700 ∧ (3600 : Int) < 2700 + 1800 :=
  claim_C2_amended [⟨10, 10, some none, none⟩] 0 2700 "T"
    [⟨10, 10, 0, 1800, "T"⟩, ⟨10, 10, 1800, 3600, "T"⟩]
    (by simp [processElectricityRates, processItems, emitLoop])
    ⟨10, 10, 1800, 3600, "T"⟩ (by simp)

/-- C3 (confirmed): every emitted interval ends exactly 30 minutes after it
starts, carries the tariff code passed to the call, and carries the prices
of one of the input records. -/
theorem claim_C3_interval_shape (items : List RawRate) (a b : Int) (tc : String)
    (l : List Rate) (h : processElectricityRates (some items) a b tc = .ok l) :
    ∀ r ∈ l, r.valid_to = r.valid_from + 1800 ∧ r.tariff_code = tc ∧
      ∃ item ∈ items, r.value_exc_vat = item.value_exc_vat ∧
        r.value_inc_vat = item.value_inc_vat := by
  have hl := processElectricityRates_ok h
  subst hl
  intro r hr
  have := processItems_mem b tc _ a r hr
  obtain ⟨item, hitem, hp⟩ := this.2.2.2.2
  exact ⟨this.2.2.1, this.2.2.2.1, item, List.mem_mergeSort.mp hitem, hp⟩

/-- Closed instance of C3 at a concrete input. -/
theorem claim_C3_witness :
    (3600 : Int) = 1800 + 1800 ∧ "T" = "T" ∧
    ∃ item ∈ [RawRate.mk 10 10 (some none) none],
      (10 : ℚ) = item.value_exc_vat ∧ (10 : ℚ) = item.value_inc_vat :=
  claim_C3_interval_shape [⟨10, 10, some none, none⟩] 0 2700 "T"
    [⟨10, 10, 0, 1800, "T"⟩, ⟨10, 10, 1800, 3600, "T"⟩]
    (by simp [processElectricityRates, processItems, emitLoop])
    ⟨10, 10, 1800, 3600, "T"⟩ (by simp)

/-- C10 (confirmed): because the input sort's key function reads the
`valid_from` key unconditionally, a list of two or more records in which
some record lacks the key makes the whole call raise a `KeyError`, even
though the per-record resolution step on line 367 would have handled the
absent key. -/
theorem claim_C10_sort_key_error (items : List RawRate) (a b : Int) (tc : String)
    (h2 : 2 ≤ items.length) (habs : ∃ i ∈ items, i.valid_from = none) :
    processElectricityRates (some items) a b tc = .error .keyError := by
  simp only [processElectricityRates]
  rw [if_pos]
  rw [List.any_eq_true]
  obtain ⟨i, hi, hnone⟩ := habs
  exact ⟨i, hi, by simp [hnone]⟩

/-- Closed instance of C10 at a concrete input. -/
theorem claim_C10_witness :
    processElectricityRates
      (some [⟨10, 10, none, none⟩, ⟨10, 10, some (some 0), none⟩]) 0 3600 "T" =
      .error .keyError :=
  claim_C10_sort_key_error [⟨10, 10, none, none⟩, ⟨10, 10, some (some 0), none⟩]
    0 3600 "T" (by simp) ⟨⟨10, 10, none, none⟩, by simp, rfl⟩

theorem emitLoop_head (e i : ℚ) (tc : String) (f t : Int) (h : f < t) :
    (emitLoop e i tc f t).1.head? = some ⟨e, i, f, f + 1800, tc⟩ := by
  rw [emitLoop_eq_pos h]
  rfl

theorem emitLoop_chain (e i : ℚ) (tc : String) (f t : Int) :
    List.Chain' (fun r s => r.valid_to = s.valid_from) (emitLoop e i tc f t).1 := by
  by_cases h : f < t
  · have ih := emitLoop_chain e i tc (f + 1800) t
    rw [emitLoop_eq_pos h]
    rw [List.chain'_cons']
    refine ⟨?_, ih⟩
    intro s hs
    by_cases h2 : f + 1800 < t
    · rw [emitLoop_head e i tc (f + 1800) t h2] at hs
      cases hs
      rfl
    · rw [emitLoop_eq_neg h2] at hs
      cases hs
  · rw [emitLoop_eq_neg h]
    exact List.chain'_nil
termination_by (t - f).toNat
decreasing_by omega

theorem processItems_single_chain (b : Int) (tc : String) (rec : RawRate) (a : Int) :
    List.Chain' (fun r s => r.valid_to = s.valid_from) (processItems b tc [rec] a) := by
  simp only [processItems, List.append_nil]
  exact emitLoop_chain _ _ _ _ _

/-- A normalized interval fed back to the API shape: the output dictionary of
`__process_electricity_rates` re-read as a raw rate record, its two
timestamp fields now both present and non-null. -/
def rateToRaw (r : Rate) : RawRate :=
  ⟨r.value_exc_vat, r.value_inc_vat, some (some r.valid_from), some r.valid_to⟩

theorem processItems_refeed (b : Int) (tc : String) :
    ∀ (L : List Rate) (cursor : Int),
      (∀ r ∈ L, r.valid_to = r.valid_from + 1800 ∧ r.valid_from < b ∧
        r.tariff_code = tc) →
      List.Chain' (fun r s => r.valid_to = s.valid_from) L →
      (∀ r ∈ L.head?, cursor ≤ r.valid_from) →
      processItems b tc (L.map rateToRaw) cursor = L
  | [], cursor, _, _, _ => rfl
  | r :: L, cursor, hmem, hchain, hhead => by
    obtain ⟨hdur, hlt, htar⟩ := hmem r (List.mem_cons_self _ _)
    have hcur : cursor ≤ r.valid_from := hhead r (by rw [List.head?_cons]; rfl)
    simp only [List.map_cons, processItems, rateToRaw]
    have hf : (if r.valid_from < cursor then cursor else r.valid_from) = r.valid_from := by
      split <;> omega
    rw [hf]
    have htlt : r.valid_from <
        (if b < r.valid_to then b else r.valid_to) := by
      split <;> omega
    have htge : ¬ (r.valid_from + 1800 <
        (if b < r.valid_to then b else r.valid_to)) := by
      split <;> omega
    rw [emitLoop_eq_pos htlt, emitLoop_eq_neg htge]
    rw [if_pos htlt]
    have hr : (⟨r.value_exc_vat, r.value_inc_vat, r.valid_from,
        r.valid_from + 1800, tc⟩ : Rate) = r := by
      cases r
      simp only at hdur htar ⊢
      rw [← hdur, htar]
    rw [hr]
    rw [List.cons_append, List.nil_append, List.cons.injEq]
    refine ⟨rfl, ?_⟩
    rw [processItems_refeed b tc L (r.valid_from + 1800)
      (fun s hs => hmem s (List.mem_cons_of_mem _ hs))
      (List.Chain'.tail hchain) ?_]
    intro s hs
    have := List.chain'_cons'.mp hchain
    have h1 := this.1 s hs
    omega

/-- C5 (confirmed): over a window with 30-minute-aligned endpoints, feeding
the normalized output of a single-record call back into
`__process_electricity_rates` over the same window reproduces the identical
sequence. -/
theorem claim_C5_idempotent (rec : RawRate) (a b : Int) (tc : String)
    (l : List Rate) (ha : (1800 : Int) ∣ a) (hb : (1800 : Int) ∣ b)
    (h : processElectricityRates (some [rec]) a b tc = .ok l) :
    processElectricityRates (some (l.map rateToRaw)) a b tc = .ok l := by
  have hl := processElectricityRates_ok h
  rw [List.mergeSort_singleton] at hl
  have hmem := fun r hr => processItems_mem b tc [rec] a r (hl ▸ hr)
  have hchain : List.Chain' (fun r s => r.valid_to = s.valid_from) l := by
    rw [hl]
    exact processItems_single_chain b tc rec a
  have hord : l.Pairwise (fun r s => r.valid_to ≤ s.valid_from) := by
    rw [hl]
    exact processItems_ordered b tc [rec] a
  have hnone : ((l.map rateToRaw).any fun i => i.valid_from.isNone) = false := by
    rw [List.any_eq_false]
    intro r hr
    rw [List.mem_map] at hr
    obtain ⟨s, _, rfl⟩ := hr
    simp [rateToRaw]
  have hnull : ((l.map rateToRaw).any fun i => decide (i.valid_from = some none)) =
      false := by
    rw [List.any_eq_false]
    intro r hr
    rw [List.mem_map] at hr
    obtain ⟨s, _, rfl⟩ := hr
    simp [rateToRaw]
  have hsorted : (l.map rateToRaw).Pairwise
      (fun i j => decide (pySortKey i ≤ pySortKey j) = true) := by
    rw [List.pairwise_map]
    refine List.Pairwise.imp_of_mem ?_ hord
    intro r s hr hs hle
    have h1 := (hmem r hr).2.2.1
    simp only [rateToRaw, pySortKey, decide_eq_true_eq]
    omega
  simp only [processElectricityRates, hnone, hnull, Bool.false_eq_true, if_false,
    and_false]
  rw [List.mergeSort_of_sorted hsorted]
  rw [processItems_refeed b tc l a (fun r hr =>
    ⟨(hmem r hr).2.2.1, (hmem r hr).2.1, (hmem r hr).2.2.2.1⟩) hchain
    (fun r hr => (hmem r (List.mem_of_mem_head? hr)).1)]

/-- Closed instance of C5 at a concrete input. -/
theorem claim_C5_witness :
    processElectricityRates
      (some ([⟨10, 10, 0, 1800, "T"⟩, ⟨10, 10, 1800, 3600, "T"⟩].map rateToRaw))
      0 3600 "T" = .ok [⟨10, 10, 0, 1800, "T"⟩, ⟨10, 10, 1800, 3600, "T"⟩] :=
  claim_C5_idempotent ⟨10, 10, some none, none⟩ 0 3600 "T"
    [⟨10, 10, 0, 1800, "T"⟩, ⟨10, 10, 1800, 3600, "T"⟩]
    ⟨0, by norm_num⟩ ⟨2, by norm_num⟩
    (by simp [processElectricityRates, processItems, emitLoop])

/-- Seconds since local midnight of the instant `t` in a timezone of fixed
UTC offset `offset` seconds.  `Int.emod` returns a value in `[0, 86400)`. -/
def localTimeOfDay (offset t : Int) : Int :=
  (t + offset) % 86400

/-- Model of `__is_between_local_times` (lines 331-344), specialized to a
fixed timezone offset (no daylight-saving transition between the rate's
date and the evaluation date, the regime the source intends).  The source
formats the rate's local date with the fixed clock strings and the current
UTC offset, reparses, and compares; with one fixed offset this reduces to
comparing the rate's local time of day against the two clock times, the
lower bound inclusive and the upper bound exclusive. -/
def is_between_local_times (offset : Int) (rate : Rate)
    (target_from_time target_to_time : Int) : Bool :=
  decide (target_from_time ≤ localTimeOfDay offset rate.valid_from) &&
    decide (localTimeOfDay offset rate.valid_from < target_to_time)

/-- Model of `async_get_electricity_day_night_rates` (lines 148-187),
abstracting the two HTTP fetches to their decoded bodies: normalize the day
response and keep intervals whose local start is between 07:00:00 and
23:59:59, normalize the night response and keep intervals whose local start
is between 00:00:00 and 07:00:00, then sort the combined list by
`valid_from` (07:00:00 = 25200 s, 23:59:59 = 86399 s). -/
def async_get_electricity_day_night_rates (offset : Int)
    (dayData nightData : Option (List RawRate)) (period_from period_to : Int)
    (tariff_code : String) : Except PyErr (List Rate) := do
  let day_rates ← processElectricityRates dayData period_from period_to tariff_code
  let results_day := day_rates.filter fun r => is_between_local_times offset r 25200 86399
  let night_rates ← processElectricityRates nightData period_from period_to tariff_code
  let results := results_day ++
    (night_rates.filter fun r => is_between_local_times offset r 0 25200)
  pure (results.mergeSort fun r s => decide (r.valid_from ≤ s.valid_from))

theorem processElectricityRates_strict {data : Option (List RawRate)}
    {a b : Int} {tc : String} {l : List Rate}
    (h : processElectricityRates data a b tc = .ok l) :
    l.Pairwise (fun r s => r.valid_from < s.valid_from) := by
  cases data with
  | none =>
    cases h
    exact List.Pairwise.nil
  | some items =>
    have hl := processElectricityRates_ok h
    subst hl
    refine List.Pairwise.imp_of_mem ?_ (processItems_ordered _ _ _ _)
    intro r s hr _ hle
    have := (processItems_mem _ _ _ _ r hr).2.2.1
    omega

/-- C4 (confirmed): in the merged day/night result, every interval kept from
the day query has a local start time between 07:00:00 and 23:59:59, every
interval kept from the night query has a local start time at or after
00:00:00 and strictly before 07:00:00, and the returned list is strictly
ordered by `valid_from` with no duplicate timestamps. -/
theorem claim_C4_day_night (offset : Int) (dayData nightData : Option (List RawRate))
    (a b : Int) (tc : String) (day night l : List Rate)
    (hd : processElectricityRates dayData a b tc = .ok day)
    (hn : processElectricityRates nightData a b tc = .ok night)
    (h : async_get_electricity_day_night_rates offset dayData nightData a b tc = .ok l) :
    (∀ r ∈ day.filter (fun r => is_between_local_times offset r 25200 86399),
      25200 ≤ localTimeOfDay offset r.valid_from ∧
        localTimeOfDay offset r.valid_from ≤ 86399) ∧
    (∀ r ∈ night.filter (fun r => is_between_local_times offset r 0 25200),
      0 ≤ localTimeOfDay offset r.valid_from ∧
        localTimeOfDay offset r.valid_from < 25200) ∧
    l.Pairwise (fun r s => r.valid_from < s.valid_from) := by
  have hday : ∀ r ∈ day.filter (fun r => is_between_local_times offset r 25200 86399),
      25200 ≤ localTimeOfDay offset r.valid_from ∧
        localTimeOfDay offset r.valid_from < 86399 := by
    intro r hr
    have := List.of_mem_filter hr
    simp only [is_between_local_times, Bool.and_eq_true, decide_eq_true_eq] at this
    exact this
  have hnight : ∀ r ∈ night.filter (fun r => is_between_local_times offset r 0 25200),
      0 ≤ localTimeOfDay offset r.valid_from ∧
        localTimeOfDay offset r.valid_from < 25200 := by
    intro r hr
    have := List.of_mem_filter hr
    simp only [is_between_local_times, Bool.and_eq_true, decide_eq_true_eq] at this
    exact this
  refine ⟨fun r hr => ⟨(hday r hr).1, by have := (hday r hr).2; omega⟩, hnight, ?_⟩
  have hl : l = (day.filter (fun r => is_between_local_times offset r 25200 86399) ++
      night.filter (fun r => is_between_local_times offset r 0 25200)).mergeSort
        (fun r s => decide (r.valid_from ≤ s.valid_from)) := by
    rw [async_get_electricity_day_night_rates, hd, hn] at h
    exact (Except.ok.inj h).symm
  subst hl
  have hne : (day.filter (fun r => is_between_local_times offset r 25200 86399) ++
      night.filter (fun r => is_between_local_times offset r 0 25200)).Pairwise
        (fun r s => r.valid_from ≠ s.valid_from) := by
    rw [List.pairwise_append]
    refine ⟨?_, ?_, ?_⟩
    · exact ((processElectricityRates_strict hd).sublist
        (List.filter_sublist _)).imp fun hlt => by omega
    · exact ((processElectricityRates_strict hn).sublist
        (List.filter_sublist _)).imp fun hlt => by omega
    · intro r hr s hs heq
      have h1 := (hday r hr).1
      have h2 := (hnight s hs).2
      rw [localTimeOfDay, heq] at h1
      rw [localTimeOfDay] at h2
      omega
  have hsorted : ((day.filter (fun r => is_between_local_times offset r 25200 86399) ++
      night.filter (fun r => is_between_local_times offset r 0 25200)).mergeSort
        (fun r s => decide (r.valid_from ≤ s.valid_from))).Pairwise
      (fun r s => r.valid_from ≤ s.valid_from) := by
    refine List.Pairwise.imp ?_ (List.sorted_mergeSort ?_ ?_ _)
    · intro r s hrs
      simpa using hrs
    · intro r s t h1 h2
      simp only [decide_eq_true_eq] at h1 h2 ⊢
      omega
    · intro r s
      simp only [Bool.or_eq_true, decide_eq_true_eq]
      omega
  have hne2 := (List.Perm.pairwise_iff
    (R := fun r s : Rate => r.valid_from ≠ s.valid_from) (fun h1 h2 => h1 h2.symm)
    (List.mergeSort_perm _ (fun r s => decide (r.valid_from ≤ s.valid_from)))).mpr hne
  exact (hsorted.and hne2).imp fun h12 => lt_of_le_of_ne h12.1 h12.2

theorem except_bind_ok {ε α β : Type} (x : α) (f : α → Except ε β) :
    (Except.ok x >>= f) = f x := rfl

/-- Closed instance of C4 at a concrete input: a three-hour window from
06:30 to 09:30 local (offset zero), one open-ended record on each of the
day and night queries; the merged result is strictly ordered. -/
theorem claim_C4_witness :
    List.Pairwise (fun r s : Rate => r.valid_from < s.valid_from)
      [⟨10, 10, 23400, 25200, "T"⟩, ⟨10, 10, 25200, 27000, "T"⟩] :=
  (claim_C4_day_night 0 (some [⟨10, 10, some none, none⟩])
      (some [⟨10, 10, some none, none⟩]) 23400 27000 "T"
      [⟨10, 10, 23400, 25200, "T"⟩, ⟨10, 10, 25200, 27000, "T"⟩]
      [⟨10, 10, 23400, 25200, "T"⟩, ⟨10, 10, 25200, 27000, "T"⟩]
      [⟨10, 10, 23400, 25200, "T"⟩, ⟨10, 10, 25200, 27000, "T"⟩]
      (by simp [processElectricityRates, processItems, emitLoop])
      (by simp [processElectricityRates, processItems, emitLoop])
      (by simp [async_get_electricity_day_night_rates, except_bind_ok,
        processElectricityRates, processItems, emitLoop, is_between_local_times,
        localTimeOfDay, List.mergeSort, List.merge])).2.2

/-- An HTTP response as seen by `__async_read_response`: the status code and
the body text. -/
structure HttpResponse where
  status : Nat
  text : String
deriving DecidableEq

/-- Model of `__async_read_response` (lines 402-412).  The parameter `loads`
models `json.loads`, an external facility: it returns the decoded value, or
nothing when the text is not valid JSON.  A status of 500 or above returns
the caller-supplied default; otherwise a failed decode raises an exception
whose message carries the URL and the body text. -/
def async_read_response {α : Type} (loads : String → Option α)
    (response : HttpResponse) (url : String) (default_value : α) : Except PyErr α :=
  if 500 ≤ response.status then .ok default_value
  else
    match loads response.text with
    | some v => .ok v
    | none => .error (.exception
        ("Failed to extract response json: " ++ url ++ "; " ++ response.text))

/-- One element of the `results` array of a standing-charge response. -/
structure PriceRow where
  value_exc_vat : ℚ
  value_inc_vat : ℚ
deriving DecidableEq

/-- A decoded standing-charge body: the optional `results` key. -/
structure ChargeData where
  results : Option (List PriceRow)
deriving DecidableEq

/-- The standing-charge result dictionary. -/
structure StandingCharge where
  value_exc_vat : ℚ
  value_inc_vat : ℚ
deriving DecidableEq

/-- Model of `async_get_electricity_standing_charge` (lines 279-300),
abstracting the HTTP fetch to the response it produced.  The URL built from
the tariff parts and the window is taken as the `url` argument.  The
caller-supplied default is the dictionary holding an empty `results` list;
the first result element, if any, is returned.  The try/except re-raises,
so errors propagate unchanged. -/
def async_get_electricity_standing_charge (loads : String → Option ChargeData)
    (response : HttpResponse) (url : String) : Except PyErr (Option StandingCharge) := do
  let data ← async_read_response loads response url ⟨some []⟩
  match data.results with
  | some (first :: _) => pure (some ⟨first.value_exc_vat, first.value_inc_vat⟩)
  | _ => pure none

/-- C6 (confirmed): a server response with status 500 or above makes the
standing-charge call return the empty result without raising: the reader
returns the default body whose `results` list is empty, so no standing
charge is extracted. -/
theorem claim_C6_server_error_soft (loads : String → Option ChargeData)
    (response : HttpResponse) (url : String) (h : 500 ≤ response.status) :
    async_get_electricity_standing_charge loads response url = .ok none := by
  rw [async_get_electricity_standing_charge, async_read_response, if_pos h]
  rfl

/-- Closed instance of C6 at a concrete input. -/
theorem claim_C6_witness :
    async_get_electricity_standing_charge (fun _ => none) ⟨503, "oops"⟩ "u" =
      .ok none :=
  claim_C6_server_error_soft (fun _ => none) ⟨503, "oops"⟩ "u" (by decide)

/-- C7 (confirmed): on a status below 500 with a body that does not decode
as JSON, the reader raises an exception whose message contains the URL and
the body text, and never returns the default (or any) value. -/
theorem claim_C7_bad_json_raises {α : Type} (loads : String → Option α)
    (response : HttpResponse) (url : String) (default_value : α)
    (h1 : response.status < 500) (h2 : loads response.text = none) :
    async_read_response loads response url default_value =
      .error (.exception
        ("Failed to extract response json: " ++ url ++ "; " ++ response.text)) ∧
    (∃ p s : String,
      "Failed to extract response json: " ++ url ++ "; " ++ response.text =
        p ++ (url ++ s)) ∧
    (∃ p s : String,
      "Failed to extract response json: " ++ url ++ "; " ++ response.text =
        p ++ (response.text ++ s)) ∧
    ∀ v, async_read_response loads response url default_value ≠ .ok v := by
  have hmain : async_read_response loads response url default_value =
      .error (.exception
        ("Failed to extract response json: " ++ url ++ "; " ++ response.text)) := by
    rw [async_read_response, if_neg (by omega), h2]
  refine ⟨hmain, ?_, ?_, ?_⟩
  · exact ⟨"Failed to extract response json: ", "; " ++ response.text, by
      rw [String.append_assoc, String.append_assoc]⟩
  · exact ⟨"Failed to extract response json: " ++ url ++ "; ", "", by
      rw [String.append_empty]⟩
  · intro v hv
    rw [hmain] at hv
    cases hv

/-- Closed instance of C7 at a concrete input. -/
theorem claim_C7_witness :
    async_read_response (fun _ => (none : Option ChargeData)) ⟨200, "nonsense"⟩
      "http://u" ⟨some []⟩ =
      .error (.exception
        ("Failed to extract response json: " ++ "http://u" ++ "; " ++ "nonsense")) :=
  (claim_C7_bad_json_raises (fun _ => (none : Option ChargeData)) ⟨200, "nonsense"⟩
    "http://u" ⟨some []⟩ (by decide) rfl).1

/-- A raw consumption item, its timestamps already parsed to instants (the
source parses the ISO strings with `parse_datetime` and converts to UTC;
`as_utc` on an aware instant is the identity on the instant). -/
structure RawConsumption where
  consumption : ℚ
  interval_start : Int
  interval_end : Int
deriving DecidableEq

/-- The transformed consumption dictionary built by `__process_consumption`. -/
structure Consumption where
  consumption : ℚ
  interval_start : Int
  interval_end : Int
deriving DecidableEq

/-- Model of `__process_consumption` (lines 346-351): cast the consumption to
float and parse the two timestamps (identity on the modelled values). -/
def process_consumption (item : RawConsumption) : Consumption :=
  ⟨item.consumption, item.interval_start, item.interval_end⟩

/-- Model of the pure core of `async_get_electricity_consumption`
(lines 200-223), abstracting the HTTP fetch to its decoded `results` value
(`none` when the decoded body has no `results` key, for which the source
returns `None`): transform each item, keep those inside the requested
window, and sort by `interval_end`. -/
def async_get_electricity_consumption (results : Option (List RawConsumption))
    (period_from period_to : Int) : Option (List Consumption) :=
  match results with
  | some data =>
    some ((((data.map process_consumption).filter fun item =>
        decide (period_from ≤ item.interval_start) &&
          decide (item.interval_end ≤ period_to))).mergeSort
      fun i j => decide (i.interval_end ≤ j.interval_end))
  | none => none

/-- Model of the pure core of `async_get_gas_consumption` (lines 244-265),
whose body is identical to the electricity one. -/
def async_get_gas_consumption (results : Option (List RawConsumption))
    (period_from period_to : Int) : Option (List Consumption) :=
  match results with
  | some data =>
    some ((((data.map process_consumption).filter fun item =>
        decide (period_from ≤ item.interval_start) &&
          decide (item.interval_end ≤ period_to))).mergeSort
      fun i j => decide (i.interval_end ≤ j.interval_end))
  | none => none

theorem consumption_core_spec (data : List RawConsumption) (a b : Int)
    (l : List Consumption)
    (h : some ((((data.map process_consumption).filter fun item =>
        decide (a ≤ item.interval_start) && decide (item.interval_end ≤ b))).mergeSort
      fun i j => decide (i.interval_end ≤ j.interval_end)) = some l) :
    l.Perm ((data.map process_consumption).filter fun item =>
      decide (a ≤ item.interval_start) && decide (item.interval_end ≤ b)) ∧
    l.Pairwise (fun i j => i.interval_end ≤ j.interval_end) := by
  cases h
  constructor
  · exact List.mergeSort_perm _ _
  · refine List.Pairwise.imp ?_ (List.sorted_mergeSort ?_ ?_ _)
    · intro i j hij
      simpa using hij
    · intro i j k h1 h2
      simp only [decide_eq_true_eq] at h1 h2 ⊢
      omega
    · intro i j
      simp only [Bool.or_eq_true, decide_eq_true_eq]
      omega

/-- C8 (confirmed): both consumption operations return exactly the
transformed items that lie inside the window (items straddling either
boundary are dropped), as a permutation fact, sorted ascending by
`interval_end`. -/
theorem claim_C8_consumption_filter (dataE dataG : List RawConsumption)
    (a b : Int) (lE lG : List Consumption)
    (hE : async_get_electricity_consumption (some dataE) a b = some lE)
    (hG : async_get_gas_consumption (some dataG) a b = some lG) :
    (lE.Perm ((dataE.map process_consumption).filter fun item =>
        decide (a ≤ item.interval_start) && decide (item.interval_end ≤ b)) ∧
      lE.Pairwise (fun i j => i.interval_end ≤ j.interval_end)) ∧
    (lG.Perm ((dataG.map process_consumption).filter fun item =>
        decide (a ≤ item.interval_start) && decide (item.interval_end ≤ b)) ∧
      lG.Pairwise (fun i j => i.interval_end ≤ j.interval_end)) :=
  ⟨consumption_core_spec dataE a b lE hE, consumption_core_spec dataG a b lG hG⟩

/-- Closed instance of C8 at a concrete input: of two raw items, the one
straddling the window start is dropped; the kept one survives in order. -/
theorem claim_C8_witness :
    (([⟨1, 0, 1800⟩] : List Consumption).Perm
        ((([⟨1, 0, 1800⟩, ⟨2, -900, 900⟩] : List RawConsumption).map
          process_consumption).filter fun item =>
            decide ((0 : Int) ≤ item.interval_start) &&
              decide (item.interval_end ≤ (3600 : Int))) ∧
      ([⟨1, 0, 1800⟩] : List Consumption).Pairwise
        (fun i j => i.interval_end ≤ j.interval_end)) ∧
    (([] : List Consumption).Perm
        ((([] : List RawConsumption).map process_consumption).filter fun item =>
          decide ((0 : Int) ≤ item.interval_start) &&
            decide (item.interval_end ≤ (3600 : Int))) ∧
      ([] : List Consumption).Pairwise
        (fun i j => i.interval_end ≤ j.interval_end)) :=
  claim_C8_consumption_filter [⟨1, 0, 1800⟩, ⟨2, -900, 900⟩] [] 0 3600
    [⟨1, 0, 1800⟩] []
    (by simp [async_get_electricity_consumption, process_consumption,
      List.mergeSort])
    (by simp [async_get_gas_consumption])

/-- The decoded token response body: whether the `data` key is present, and
the value at the nested path `data / obtainKrakenToken / token` when the
whole path resolves (`none` when some level of the path is missing or
null, for which the subscript chain on line 88 raises; both lookup failure
modes are collapsed into `keyError`). -/
structure TokenResponseBody where
  hasData : Bool
  token : Option String
deriving DecidableEq

/-- A raw electricity meter from the account query. -/
structure RawMeter where
  serialNumber : String
  smartExportElectricityMeter : Option String
deriving DecidableEq

/-- A raw gas meter from the account query. -/
structure RawGasMeter where
  serialNumber : String
deriving DecidableEq

/-- A raw agreement from the account query. -/
structure RawAgreement where
  validFrom : Option String
  validTo : Option String
  tariffCode : String
deriving DecidableEq

/-- A raw electricity meter point (the `meterPoint` object of one entry of
`electricityAgreements`). -/
structure RawElectricityMeterPoint where
  mpan : String
  meters : List RawMeter
  agreements : List RawAgreement
deriving DecidableEq

/-- A raw gas meter point (the `meterPoint` object of one entry of
`gasAgreements`). -/
structure RawGasMeterPoint where
  mprn : String
  meters : List RawGasMeter
  agreements : List RawAgreement
deriving DecidableEq

/-- The decoded account response body: whether the `data` key is present,
and the meter point lists beneath it. -/
structure AccountResponseBody where
  hasData : Bool
  electricityAgreements : List RawElectricityMeterPoint
  gasAgreements : List RawGasMeterPoint
deriving DecidableEq

/-- An electricity meter in the returned snapshot. -/
structure Meter where
  serial_number : String
  is_export : Bool
deriving DecidableEq

/-- A gas meter in the returned snapshot. -/
structure GasMeter where
  serial_number : String
deriving DecidableEq

/-- An agreement in the returned snapshot. -/
structure Agreement where
  valid_from : Option String
  valid_to : Option String
  tariff_code : String
deriving DecidableEq

/-- An electricity meter point in the returned snapshot. -/
structure ElectricityMeterPoint where
  mpan : String
  meters : List Meter
  agreements : List Agreement
deriving DecidableEq

/-- A gas meter point in the returned snapshot. -/
structure GasMeterPoint where
  mprn : String
  meters : List GasMeter
  agreements : List Agreement
deriving DecidableEq

/-- The account snapshot returned by `async_get_account`. -/
structure Account where
  electricity_meter_points : List ElectricityMeterPoint
  gas_meter_points : List GasMeterPoint
deriving DecidableEq

/-- The reshaping of the account response body into the snapshot
(lines 99-123): field renames, with the export flag derived from the
presence of a smart export meter. -/
def buildAccount (body : AccountResponseBody) : Account :=
  { electricity_meter_points := body.electricityAgreements.map fun mp =>
      { mpan := mp.mpan
        meters := mp.meters.map fun m =>
          { serial_number := m.serialNumber
            is_export := !m.smartExportElectricityMeter.isNone }
        agreements := mp.agreements.map fun ag =>
          { valid_from := ag.validFrom
            valid_to := ag.validTo
            tariff_code := ag.tariffCode } }
    gas_meter_points := body.gasAgreements.map fun mp =>
      { mprn := mp.mprn
        meters := mp.meters.map fun m => { serial_number := m.serialNumber }
        agreements := mp.agreements.map fun ag =>
          { valid_from := ag.validFrom
            valid_to := ag.validTo
            tariff_code := ag.tariffCode } } }

/-- Model of `async_get_account` (lines 80-130), abstracting the two HTTP
round trips: `tokenBody` is the decoded token response (`none` when the
reader returned `None`), and `fetchAccount` performs the account query with
the obtained token, returning its decoded body or raising.  When the token
body lacks the `data` key, or is `None`, the failure is logged and `None`
is returned; when `data` is present but the nested token path does not
resolve, the subscript chain raises a lookup error. -/
def async_get_account (tokenBody : Option TokenResponseBody)
    (fetchAccount : String → Except PyErr (Option AccountResponseBody)) :
    Except PyErr (Option Account) :=
  match tokenBody with
  | some tb =>
    if tb.hasData then
      match tb.token with
      | some token => do
        let accountBody ← fetchAccount token
        match accountBody with
        | some ab =>
          if ab.hasData then pure (some (buildAccount ab))
          else pure none
        | none => pure none
      | none => .error .keyError
    else .ok none
  | none => .ok none

/-- C9 (amended).  The claim as frozen is false: when the decoded token
body has the `data` key but the nested token path is absent, the subscript
chain raises a lookup error instead of returning `None` (see the
counterexample).  What holds is the path the source guards: when the token
response is `None` or its body lacks the `data` key, the call returns
`None` without raising, whatever the account fetch would do. -/
theorem claim_C9_amended (tb : TokenResponseBody)
    (fetchAccount : String → Except PyErr (Option AccountResponseBody))
    (h : tb.hasData = false) :
    async_get_account (some tb) fetchAccount = .ok none ∧
    async_get_account none fetchAccount = .ok none := by
  constructor
  · rw [async_get_account, h]
    rfl
  · rfl

/-- C9, the claim as frozen, is false on the code: a well-formed decoded
token body whose `data` key is present but whose token path is absent makes
the call raise a lookup error rather than return `None`. -/
theorem claim_C9_counterexample :
    async_get_account (some ⟨true, none⟩) (fun _ => .ok none) =
      .error .keyError := rfl

/-- Closed instance of the amended C9 at a concrete input. -/
theorem claim_C9_witness :
    async_get_account (some ⟨false, none⟩) (fun _ => .ok none) = .ok none ∧
    async_get_account none (fun _ => .ok none) = .ok none :=
  claim_C9_amended ⟨false, none⟩ (fun _ => .ok none) rfl

end OctopusEnergy
